import Mathlib

/-!
Verification of the Sargam Carnatic-music transcription application.

The frontend (TypeScript: the Zustand app store, the audio player, the
swaram / lyrics / raaga display components and the transcription handler)
is embedded directly from its source files.  The backend analysis core
(pitch extraction, swaram mapping, raaga detection) is distributed
separately; the definitions for it are modelled from the specification
text, as marked in their doc comments.

Numbers are represented by rationals; time values are seconds, confidence
scores lie in the unit interval.
-/

/-- The twelve canonical Carnatic scale degrees, in ascending order
(data model section of the specification). -/
inductive ScaleDegree where
  | Sa | Ri1 | Ri2 | Ga2 | Ga3 | Ma1 | Ma2 | Pa | Da1 | Da2 | Ni2 | Ni3
  deriving DecidableEq, Repr

/-- The three octave bands relative to the tonic. -/
inductive Octave where
  | Mandra | Madhya | Tara
  deriving DecidableEq, Repr

/-- A transcribed note.  Mirrors the `SwaramNote` interface of
`store/app-store.ts`; the source field `end` is called `endTime` here
because `end` is reserved in Lean. -/
structure SwaramNote where
  start : ℚ
  endTime : ℚ
  swaram : ScaleDegree
  octave : Octave
  gamakam : Option String
  confidence : ℚ
  deriving DecidableEq

/-- A lyrics segment with timing, from the `LyricsData` interface of
`store/app-store.ts`. -/
structure LyricsData where
  text : String
  start : ℚ
  endTime : ℚ
  deriving DecidableEq

/-- Music system tag of a raaga catalog entry. -/
inductive MusicSystem where
  | Carnatic | Hindustani
  deriving DecidableEq, Repr

/-- Detected-raaga information held by the frontend store, from the
`RaagaInfo` interface of `store/app-store.ts`. -/
structure RaagaInfo where
  name : String
  type : MusicSystem
  confidence : ℚ
  arohana : Option (List String)
  avarohana : Option (List String)
  characteristics : Option String
  deriving DecidableEq

/-- The data fields of the Zustand application store
(`store/app-store.ts`).  The store also holds its action closures; those
are behaviour, modelled below as functions on this state. -/
structure AppState where
  audioFile : Option String
  audioUrl : Option String
  isTranscribing : Bool
  transcriptionProgress : ℚ
  transcriptionResult : Option (List SwaramNote)
  raagaInfo : Option RaagaInfo
  lyrics : Option (List LyricsData)
  currentTime : ℚ
  isPlaying : Bool
  duration : ℚ

/-- The initial store state from the `create` call in
`store/app-store.ts`. -/
def initialAppState : AppState where
  audioFile := none
  audioUrl := none
  isTranscribing := false
  transcriptionProgress := 0
  transcriptionResult := none
  raagaInfo := none
  lyrics := none
  currentTime := 0
  isPlaying := false
  duration := 0

/-- The `reset` action of the store: it passes every one of the ten data
fields to `set`, so the whole state is replaced by the initial values
regardless of the previous state. -/
def reset (_s : AppState) : AppState := initialAppState

/-- `skipBackward` from `components/audio-player.tsx`:
`audio.currentTime = Math.max(0, audio.currentTime - 5)`. -/
def skipBackward (t : ℚ) : ℚ := max 0 (t - 5)

/-- `skipForward` from `components/audio-player.tsx`:
`audio.currentTime = Math.min(duration, audio.currentTime + 5)`. -/
def skipForward (duration t : ℚ) : ℚ := min duration (t + 5)

/-- The covering test used by the current-swaram lookup in
`components/swaram-display.tsx`:
`currentTime >= note.start && currentTime <= note.end`
(inclusive at both ends). -/
def coversIncl (n : SwaramNote) (t : ℚ) : Prop := n.start ≤ t ∧ t ≤ n.endTime

instance (n : SwaramNote) (t : ℚ) : Decidable (coversIncl n t) := by
  unfold coversIncl; infer_instance

/-- `getCurrentSwaram` from `components/swaram-display.tsx`: when a
transcription result is present, the index of the first note `n` with
`n.start <= currentTime <= n.end` (via `Array.findIndex`), else null. -/
def getCurrentSwaram (transcriptionResult : Option (List SwaramNote))
    (currentTime : ℚ) : Option Nat :=
  match transcriptionResult with
  | none => none
  | some notes =>
      notes.findIdx? fun n =>
        decide (n.start ≤ currentTime) && decide (currentTime ≤ n.endTime)

/-- `getCurrentLyrics` from `components/lyrics-display.tsx`: the same
first-match inclusive-bounds lookup over the lyrics segments. -/
def getCurrentLyrics (lyrics : Option (List LyricsData)) (currentTime : ℚ) :
    Option Nat :=
  match lyrics with
  | none => none
  | some segs =>
      segs.findIdx? fun seg =>
        decide (seg.start ≤ currentTime) && decide (currentTime ≤ seg.endTime)

/-- The lookup the specification describes, for comparison with
`getCurrentSwaram`: end times are exclusive, so a note covers `t` exactly
when `start <= t < end`. -/
def endExclusiveLookup (transcriptionResult : Option (List SwaramNote))
    (currentTime : ℚ) : Option Nat :=
  match transcriptionResult with
  | none => none
  | some notes =>
      notes.findIdx? fun n =>
        decide (n.start ≤ currentTime) && decide (currentTime < n.endTime)

/-- What a result panel of the frontend renders: the placeholder card or
the real content. -/
inductive RenderState where
  | placeholder | content
  deriving DecidableEq

/-- The empty-state branch of `RaagaInfoDisplay` (`components/raaga-info.tsx`):
with no raaga info in the store it renders the placeholder card. -/
def renderRaagaInfo (raagaInfo : Option RaagaInfo) : RenderState :=
  match raagaInfo with
  | none => .placeholder
  | some _ => .content

/-- The empty-state branch of `SwaramDisplay`
(`components/swaram-display.tsx`): a missing or empty transcription
result renders the placeholder card. -/
def renderSwaramDisplay (transcriptionResult : Option (List SwaramNote)) :
    RenderState :=
  match transcriptionResult with
  | none => .placeholder
  | some notes => if notes.length = 0 then .placeholder else .content

/-- A toast notification as issued by the transcription handler. -/
inductive Toast where
  | success (msg : String)
  | error (msg : String)
  deriving DecidableEq

/-- The toast issued on the success path of `handleTranscribe`
(`app/page.tsx`): a success message in both branches, whether or not any
swarams were returned. -/
def transcribeToast (swarams : Option (List SwaramNote)) : Toast :=
  match swarams with
  | some notes =>
      if 0 < notes.length then
        .success "Transcription completed successfully!"
      else
        .success "Transcription completed, but no swarams were detected in the audio."
  | none =>
      .success "Transcription completed, but no swarams were detected in the audio."

/-- Modelled from the spec: the fixed just-intonation frequency ratio of
each scale degree relative to the tonic (`_calculate_swaram_frequencies`
of the backend transcriber, whose source is not in the repository
snapshot; the specification fixes a just-intonation twelve-tone system). -/
def justFactor : ScaleDegree → ℚ
  | .Sa => 1
  | .Ri1 => 16 / 15
  | .Ri2 => 9 / 8
  | .Ga2 => 6 / 5
  | .Ga3 => 5 / 4
  | .Ma1 => 4 / 3
  | .Ma2 => 45 / 32
  | .Pa => 3 / 2
  | .Da1 => 8 / 5
  | .Da2 => 5 / 3
  | .Ni2 => 16 / 9
  | .Ni3 => 15 / 8

/-- Modelled from the spec: the frequency factor of each octave band;
the Madhya band sits at the tonic, Mandra one octave below, Tara one
octave above, and band edges scale with the tonic. -/
def octaveFactor : Octave → ℚ
  | .Mandra => 1 / 2
  | .Madhya => 1
  | .Tara => 2

/-- The twelve scale degrees in their canonical ascending order. -/
def scaleDegrees : List ScaleDegree :=
  [.Sa, .Ri1, .Ri2, .Ga2, .Ga3, .Ma1, .Ma2, .Pa, .Da1, .Da2, .Ni2, .Ni3]

/-- The three octave bands in ascending order. -/
def octaves : List Octave := [.Mandra, .Madhya, .Tara]

/-- The ordered (octave-index, scale-degree-index) key sequence of the
ToneMap. -/
def toneMapKeys : List (Octave × ScaleDegree) :=
  octaves.flatMap fun o => scaleDegrees.map fun d => (o, d)

/-- Modelled from the spec: the frequency the ToneMap assigns to an
(octave, degree) key for tonic `T` — the tonic scaled by the octave
factor and the just-intonation ratio. -/
def toneMapFreq (T : ℚ) (k : Octave × ScaleDegree) : ℚ :=
  T * (octaveFactor k.1 * justFactor k.2)

/-- Modelled from the spec: the ToneMap built once per tonic, an ordered
association of (octave, degree) keys to frequencies. -/
def toneMap (T : ℚ) : List ((Octave × ScaleDegree) × ℚ) :=
  toneMapKeys.map fun k => (k, toneMapFreq T k)

/-- The fixed cent tolerance of the swaram mapper (±10 cents). -/
def centTolerance : ℚ := 10

/-- First entry of minimal distance to the query position `c`
(distances measured on the second component). -/
def nearestEntry {α : Type} : List (α × ℚ) → ℚ → Option (α × ℚ)
  | [], _ => none
  | e :: es, c =>
    match nearestEntry es c with
    | none => some e
    | some e2 => if |c - e2.2| < |c - e.2| then some e2 else some e

/-- Modelled from the spec: `Transcriber._frequency_to_swaram` of the
backend (source not in the repository snapshot).  The mapper computes the
cent distance from the frame to every ToneMap entry, selects the nearest
and accepts it only when the absolute cent distance is at most 10 cents.
The embedding works in the cents domain: the cent distance between
frequencies f and g is 1200 · log2 (f / g), so representing every
frequency by its cent offset from a common reference turns the cent
distance into the absolute difference of the offsets; `entries` carries
each ToneMap key with its cent position and `c` is the frame position in
the same coordinates. -/
def frequencyToSwaram (entries : List ((ScaleDegree × Octave) × ℚ))
    (c : ℚ) : Option (ScaleDegree × Octave) :=
  match nearestEntry entries c with
  | none => none
  | some e => if |c - e.2| ≤ centTolerance then some e.1 else none

/-- A raaga catalog entry (data model section of the specification). -/
structure RaagaCandidate where
  name : String
  system : MusicSystem
  arohana : List ScaleDegree
  avarohana : List ScaleDegree
  characteristics : String
  deriving DecidableEq

/-- The Raaga Matcher output: a catalog entry plus a confidence score. -/
structure RaagaMatch where
  raaga : RaagaCandidate
  confidence : ℚ
  deriving DecidableEq

/-- The unique elements of a list in first-occurrence order. -/
def firstOccur : List ScaleDegree → List ScaleDegree
  | [] => []
  | x :: xs => x :: firstOccur (xs.filter fun y => decide (y ≠ x))
termination_by l => l.length
decreasing_by
  simp only [List.length_cons]
  exact Nat.lt_succ_of_le (List.length_filter_le _ _)

/-- Length of a longest common subsequence of two degree sequences. -/
def lcsLen : List ScaleDegree → List ScaleDegree → Nat
  | [], _ => 0
  | _ :: _, [] => 0
  | a :: as, b :: bs =>
    if a = b then lcsLen as bs + 1
    else max (lcsLen (a :: as) bs) (lcsLen as (b :: bs))
termination_by a b => a.length + b.length
decreasing_by all_goals simp_arith

/-- Longest-common-subsequence score of the observed order against a
declared pattern, normalised to the unit interval. -/
def lcsScore (obs pattern : List ScaleDegree) : ℚ :=
  (lcsLen obs pattern : ℚ) / ((max obs.length pattern.length : ℕ) : ℚ)

/-- Modelled from the spec: the set-overlap score of a candidate against
the observed degrees — the shared degrees as a fraction of the union of
the candidate scale (arohana and avarohana together) and the observed
set, which penalises symmetrically candidate degrees never observed and
observed degrees foreign to the candidate. -/
def overlapScore (cand : RaagaCandidate) (obs : List ScaleDegree) : ℚ :=
  let candSet := firstOccur (cand.arohana ++ cand.avarohana)
  let interSet := candSet.filter fun d => decide (d ∈ obs)
  let unionSet := candSet ++ obs.filter fun d => decide (d ∉ candSet)
  (interSet.length : ℚ) / (unionSet.length : ℚ)

/-- Modelled from the spec: the pattern score — the better
longest-common-subsequence score of the observed first-occurrence order
against the candidate arohana and against its avarohana reversed. -/
def patternScore (cand : RaagaCandidate) (obs : List ScaleDegree) : ℚ :=
  max (lcsScore obs cand.arohana) (lcsScore obs cand.avarohana.reverse)

/-- Modelled from the spec: the combined score,
0.6 · overlap + 0.4 · pattern. -/
def combinedScore (cand : RaagaCandidate) (obs : List ScaleDegree) : ℚ :=
  3 / 5 * overlapScore cand obs + 2 / 5 * patternScore cand obs

/-- The minimum confidence threshold of the Raaga Matcher (0.30). -/
def minConfidence : ℚ := 3 / 10

/-- First element of maximal value under `f`; on an exact tie the
earlier element wins (catalog order). -/
def argmaxFirst {α : Type} (f : α → ℚ) : List α → Option α
  | [] => none
  | x :: xs =>
    match argmaxFirst f xs with
    | none => some x
    | some y => if f x < f y then some y else some x

/-- Catalog entry for Mayamalavagowla, with the arohana and avarohana
documented in the API reference. -/
def mayamalavagowla : RaagaCandidate where
  name := "Mayamalavagowla"
  system := .Carnatic
  arohana := [.Sa, .Ri1, .Ga3, .Ma1, .Pa, .Da1, .Ni3, .Sa]
  avarohana := [.Sa, .Ni3, .Da1, .Pa, .Ma1, .Ga3, .Ri1, .Sa]
  characteristics := "Foundational raaga used for beginner lessons"

/-- Catalog entry for Shankarabharanam. -/
def shankarabharanam : RaagaCandidate where
  name := "Shankarabharanam"
  system := .Carnatic
  arohana := [.Sa, .Ri2, .Ga3, .Ma1, .Pa, .Da2, .Ni3, .Sa]
  avarohana := [.Sa, .Ni3, .Da2, .Pa, .Ma1, .Ga3, .Ri2, .Sa]
  characteristics := "Major-scale raaga, bright and complete"

/-- Catalog entry for Mohanam. -/
def mohanam : RaagaCandidate where
  name := "Mohanam"
  system := .Carnatic
  arohana := [.Sa, .Ri2, .Ga3, .Pa, .Da2, .Sa]
  avarohana := [.Sa, .Da2, .Pa, .Ga3, .Ri2, .Sa]
  characteristics := "Pentatonic raaga, sweet and popular"

/-- The static raaga catalog.  Modelled from the spec and the API
reference, which documents the Mayamalavagowla entry explicitly; the
further common raagas stand in for the rest of the fixed table. -/
def raagaCatalog : List RaagaCandidate :=
  [mayamalavagowla, shankarabharanam, mohanam]

/-- Step 1 of the Raaga Matcher: the set of scale degrees actually used,
in first-occurrence order. -/
def observedOrder (notes : List SwaramNote) : List ScaleDegree :=
  firstOccur (notes.map fun n => n.swaram)

/-- Modelled from the spec: the Raaga Matcher on the observed degree
sequence against a given catalog — take the first-occurrence order,
score every catalog candidate, select the maximum (catalog order
breaking ties) and report it only when the combined score reaches the
minimum confidence. -/
def detectAgainst (catalog : List RaagaCandidate)
    (degrees : List ScaleDegree) : Option RaagaMatch :=
  let obs := firstOccur degrees
  match argmaxFirst (fun c => combinedScore c obs) catalog with
  | none => none
  | some best =>
      if minConfidence ≤ combinedScore best obs then
        some { raaga := best, confidence := combinedScore best obs }
      else none

/-- The Raaga Matcher against the static catalog. -/
def detectFromDegrees (degrees : List ScaleDegree) : Option RaagaMatch :=
  detectAgainst raagaCatalog degrees

/-- Modelled from the spec: `detectRaaga` over the note sequence; octave
information is discarded — only the scale-degree field of each note in
order reaches the matcher. -/
def detectRaaga (notes : List SwaramNote) : Option RaagaMatch :=
  detectFromDegrees (notes.map fun n => n.swaram)

/-- Failure taxonomy of the pipeline boundary: input-shape
(validation-kind) failures are distinguished from internal processing
failures, and both from successful (possibly empty) results. -/
inductive TranscribeError where
  | validation (msg : String)
  | processing (msg : String)
  deriving DecidableEq

/-- Modelled from the spec: the `transcribe` pipeline boundary.  An
empty sample buffer, a non-positive sample rate or a non-positive tonic
is rejected with a validation failure before any analysis stage runs;
otherwise the analysis stages (taken here as a parameter, so that the
validation behaviour is established for every analysis) produce the
result. -/
def transcribeWith
    (analyze : List ℚ → ℚ → ℚ → Except TranscribeError (List SwaramNote))
    (monoSamples : List ℚ) (sampleRate tonicHz : ℚ) :
    Except TranscribeError (List SwaramNote) :=
  if monoSamples.isEmpty then
    .error (.validation "empty audio buffer")
  else if sampleRate ≤ 0 then
    .error (.validation "non-positive sample rate")
  else if tonicHz ≤ 0 then
    .error (.validation "non-positive tonic")
  else analyze monoSamples sampleRate tonicHz

/-- The documented default tonic (about 131 Hz). -/
def defaultTonic : ℚ := 131

/-- Whether a toast reports success. -/
def Toast.isSuccess : Toast → Bool
  | .success _ => true
  | .error _ => false

/-- Example note pair sharing the boundary time 1: the first note spans
[0, 1], the second spans [1, 2]. -/
def boundaryNotes : List SwaramNote :=
  [ { start := 0, endTime := 1, swaram := .Sa, octave := .Madhya
    , gamakam := none, confidence := 1 }
  , { start := 1, endTime := 2, swaram := .Ri1, octave := .Madhya
    , gamakam := none, confidence := 1 } ]

/-- Whether a pipeline outcome is an input-shape (validation-kind)
failure. -/
def isValidationFailure : Except TranscribeError (List SwaramNote) → Bool
  | .error (.validation _) => true
  | _ => false

/-- A small cents-domain entry list used as concrete input for the
swaram-mapper witnesses: a Sa entry at cent position 0 and a Ri1 entry
at cent position 112 (the just-intonation 16/15 step is about 111.7
cents). -/
def demoCentEntries : List ((ScaleDegree × Octave) × ℚ) :=
  [((.Sa, .Madhya), 0), ((.Ri1, .Madhya), 112)]

/-- C9: the `reset` action of the app store restores every one of the
ten state fields to its initial value (`audioFile = null`,
`audioUrl = null`, `isTranscribing = false`, `transcriptionProgress = 0`,
`transcriptionResult = null`, `raagaInfo = null`, `lyrics = null`,
`currentTime = 0`, `isPlaying = false`, `duration = 0`), leaving no
field at its pre-reset value. -/
theorem reset_restores_initial_state (s : AppState) :
    (reset s).audioFile = none ∧ (reset s).audioUrl = none ∧
    (reset s).isTranscribing = false ∧ (reset s).transcriptionProgress = 0 ∧
    (reset s).transcriptionResult = none ∧ (reset s).raagaInfo = none ∧
    (reset s).lyrics = none ∧ (reset s).currentTime = 0 ∧
    (reset s).isPlaying = false ∧ (reset s).duration = 0 ∧
    reset s = initialAppState :=
  ⟨rfl, rfl, rfl, rfl, rfl, rfl, rfl, rfl, rfl, rfl, rfl⟩

/-- C10 as stated is false: with playback time 20 and duration 1 (both
nonnegative, as the claim requires), `skipBackward` yields 15, which is
not within [0, 1]. -/
theorem skip_bounds_counterexample :
    (0 : ℚ) ≤ 20 ∧ (0 : ℚ) ≤ 1 ∧ skipBackward 20 = 15 ∧
      ¬ skipBackward 20 ≤ 1 := by
  norm_num [skipBackward, max_def]

/-- C10 amended: when additionally the playback time does not exceed the
duration (t ≤ d, which always holds for a real playback position), the
skip controls keep the time within [0, d]: `skipBackward` sets it to
max(0, t − 5) and `skipForward` to min(d, t + 5), and both results lie
in [0, d]. -/
theorem skip_bounds (t d : ℚ) (ht : 0 ≤ t) (htd : t ≤ d) :
    skipBackward t = max 0 (t - 5) ∧ skipForward d t = min d (t + 5) ∧
    0 ≤ skipBackward t ∧ skipBackward t ≤ d ∧
    0 ≤ skipForward d t ∧ skipForward d t ≤ d := by
  have hd : 0 ≤ d := le_trans ht htd
  refine ⟨rfl, rfl, le_max_left _ _, ?_, ?_, min_le_left _ _⟩
  · exact max_le hd (by linarith)
  · exact le_min hd (by linarith)

/-- Witness for the amended C10 at t = 3, d = 10. -/
theorem skip_bounds_witness :
    0 ≤ skipBackward 3 ∧ skipBackward 3 ≤ 10 ∧
    0 ≤ skipForward 10 3 ∧ skipForward 10 3 ≤ 10 := by
  have h := skip_bounds 3 10 (by norm_num) (by norm_num)
  exact ⟨h.2.2.1, h.2.2.2.1, h.2.2.2.2.1, h.2.2.2.2.2⟩

/-- C8: degenerate content propagates as "no results", never as a
fault: the raaga panel renders its placeholder when the match is absent,
the swaram panel renders its placeholder when the note list is missing
or empty, and the transcription handler reports success — for every
returned swaram list, empty included — rather than an error. -/
theorem degenerate_results_render_no_results :
    renderRaagaInfo none = .placeholder ∧
    renderSwaramDisplay none = .placeholder ∧
    renderSwaramDisplay (some []) = .placeholder ∧
    (transcribeToast (some [])).isSuccess = true ∧
    (transcribeToast none).isSuccess = true ∧
    (∀ notes : List SwaramNote, (transcribeToast (some notes)).isSuccess = true) := by
  refine ⟨rfl, rfl, rfl, rfl, rfl, ?_⟩
  intro notes
  cases notes <;> simp [transcribeToast, Toast.isSuccess]

/-- C1 as stated is false on the frontend code: at the boundary time 1
shared by the two notes of `boundaryNotes`, `getCurrentSwaram` (which
tests `start <= t && t <= end`, end-inclusive, and takes the first
match) selects the earlier note (index 0), while the end-exclusive rule
of the claim would select the later note (index 1). -/
theorem current_swaram_lookup_counterexample :
    getCurrentSwaram (some boundaryNotes) 1 = some 0 ∧
    endExclusiveLookup (some boundaryNotes) 1 = some 1 ∧
    getCurrentSwaram (some boundaryNotes) 1 ≠
      endExclusiveLookup (some boundaryNotes) 1 := by
  refine ⟨?_, ?_, ?_⟩ <;>
    norm_num [getCurrentSwaram, endExclusiveLookup, boundaryNotes,
      List.findIdx?_cons, List.findIdx?_succ]

/-- C1 amended: the frontend current-swaram lookup uses the
end-inclusive covering rule `start ≤ t ≤ end` and returns the first
covering note, so a time equal to the boundary shared by two consecutive
notes belongs to the earlier note, not the later one: `getCurrentSwaram`
returns index i exactly when note i covers t inclusively and no earlier
note does, it returns nothing exactly when no note covers t inclusively,
and whenever note i covers t it never returns index i + 1. -/
theorem getCurrentSwaram_first_inclusive_cover (notes : List SwaramNote) (t : ℚ) :
    (getCurrentSwaram none t = none) ∧
    (∀ i, getCurrentSwaram (some notes) t = some i ↔
      ∃ h : i < notes.length, coversIncl (notes.get ⟨i, h⟩) t ∧
        ∀ j (hj : j < notes.length), j < i → ¬ coversIncl (notes.get ⟨j, hj⟩) t) ∧
    (getCurrentSwaram (some notes) t = none ↔ ∀ n ∈ notes, ¬ coversIncl n t) ∧
    (∀ i (h1 : i < notes.length), i + 1 < notes.length →
      coversIncl (notes.get ⟨i, h1⟩) t →
      getCurrentSwaram (some notes) t ≠ some (i + 1)) := by
  have hsome : ∀ i, getCurrentSwaram (some notes) t = some i ↔
      ∃ h : i < notes.length, coversIncl (notes.get ⟨i, h⟩) t ∧
        ∀ j (hj : j < notes.length), j < i → ¬ coversIncl (notes.get ⟨j, hj⟩) t := by
    intro i
    show notes.findIdx? _ = some i ↔ _
    rw [List.findIdx?_eq_some_iff_getElem]
    constructor
    · rintro ⟨h, hp, hmin⟩
      refine ⟨h, ?_, ?_⟩
      · simpa [coversIncl, List.get_eq_getElem, Bool.and_eq_true,
          decide_eq_true_eq] using hp
      · intro j hj hji
        have := hmin j hji
        simpa [coversIncl, List.get_eq_getElem, Bool.and_eq_true,
          decide_eq_true_eq] using this
    · rintro ⟨h, hc, hmin⟩
      refine ⟨h, ?_, ?_⟩
      · simpa [coversIncl, List.get_eq_getElem, Bool.and_eq_true,
          decide_eq_true_eq] using hc
      · intro j hji
        have := hmin j (Nat.lt_trans hji h) hji
        simpa [coversIncl, List.get_eq_getElem, Bool.and_eq_true,
          decide_eq_true_eq] using this
  refine ⟨rfl, hsome, ?_, ?_⟩
  · show notes.findIdx? _ = none ↔ _
    rw [List.findIdx?_eq_none_iff]
    constructor
    · intro hall n hn
      have := hall n hn
      simpa [coversIncl, Bool.and_eq_true, decide_eq_true_eq] using this
    · intro hall n hn
      have := hall n hn
      simpa [coversIncl, Bool.and_eq_true, decide_eq_true_eq] using this
  · intro i h1 h2 hcov heq
    obtain ⟨h, _, hmin⟩ := (hsome (i + 1)).mp heq
    exact hmin i h1 (Nat.lt_succ_self i) hcov

/-- Witness for the amended C1: on a concrete single-note list the
lookup returns index 0 through the characterisation. -/
theorem getCurrentSwaram_first_inclusive_cover_witness :
    getCurrentSwaram
      (some [{ start := 0, endTime := 1, swaram := .Sa, octave := .Madhya
             , gamakam := none, confidence := 1 }]) 0 = some 0 :=
  ((getCurrentSwaram_first_inclusive_cover
      [{ start := 0, endTime := 1, swaram := .Sa, octave := .Madhya
       , gamakam := none, confidence := 1 }] 0).2.1 0).mpr
    ⟨by norm_num, by constructor <;> norm_num,
     fun j hj hji => absurd hji (Nat.not_lt_zero j)⟩

/-- The argmax fold never returns `none` on a nonempty list. -/
theorem argmaxFirst_ne_none {α : Type} (f : α → ℚ) (x : α) (xs : List α) :
    argmaxFirst f (x :: xs) ≠ none := by
  simp only [argmaxFirst]
  cases h : argmaxFirst f xs with
  | none => simp
  | some y => by_cases hlt : f x < f y <;> simp [hlt]

/-- The argmax fold returns an element of the list that dominates every
element of the list. -/
theorem argmaxFirst_spec {α : Type} (f : α → ℚ) (l : List α) (y : α)
    (h : argmaxFirst f l = some y) : y ∈ l ∧ ∀ x ∈ l, f x ≤ f y := by
  induction l generalizing y with
  | nil => simp [argmaxFirst] at h
  | cons x xs ih =>
    cases hxs : argmaxFirst f xs with
    | none =>
      simp only [argmaxFirst, hxs, Option.some.injEq] at h
      subst h
      have hx : xs = [] := by
        cases xs with
        | nil => rfl
        | cons a as => exact absurd hxs (argmaxFirst_ne_none f a as)
      subst hx
      refine ⟨by simp, ?_⟩
      intro z hz
      simp only [List.mem_singleton] at hz
      subst hz
      exact le_refl _
    | some y2 =>
      simp only [argmaxFirst, hxs] at h
      obtain ⟨hmem, hmax⟩ := ih y2 hxs
      by_cases hlt : f x < f y2
      · rw [if_pos hlt] at h
        simp only [Option.some.injEq] at h
        subst h
        refine ⟨List.mem_cons_of_mem _ hmem, ?_⟩
        intro z hz
        rcases List.mem_cons.mp hz with rfl | hz2
        · exact le_of_lt hlt
        · exact hmax z hz2
      · rw [if_neg hlt] at h
        simp only [Option.some.injEq] at h
        subst h
        refine ⟨List.mem_cons_self x xs, ?_⟩
        intro z hz
        rcases List.mem_cons.mp hz with rfl | hz2
        · exact le_refl _
        · exact le_trans (hmax z hz2) (not_lt.mp hlt)

/-- A successful detection returns a catalog entry of maximal combined
score whose confidence is that score and clears the threshold. -/
theorem detectAgainst_some_spec (catalog : List RaagaCandidate)
    (degrees : List ScaleDegree) (m : RaagaMatch)
    (h : detectAgainst catalog degrees = some m) :
    m.raaga ∈ catalog ∧
    (∀ c ∈ catalog, combinedScore c (firstOccur degrees) ≤
      combinedScore m.raaga (firstOccur degrees)) ∧
    m.confidence = combinedScore m.raaga (firstOccur degrees) ∧
    minConfidence ≤ m.confidence := by
  simp only [detectAgainst] at h
  cases hbest : argmaxFirst (fun c => combinedScore c (firstOccur degrees))
      catalog with
  | none =>
    simp only [hbest] at h
    exact Option.noConfusion h
  | some best =>
    simp only [hbest] at h
    by_cases hth : minConfidence ≤ combinedScore best (firstOccur degrees)
    · rw [if_pos hth] at h
      simp only [Option.some.injEq] at h
      subst h
      obtain ⟨hmem, hmax⟩ := argmaxFirst_spec _ _ _ hbest
      exact ⟨hmem, hmax, rfl, hth⟩
    · rw [if_neg hth] at h
      cases h

/-- When detection reports no match, every catalog entry scores below
the threshold. -/
theorem detectAgainst_none_spec (catalog : List RaagaCandidate)
    (degrees : List ScaleDegree) (h : detectAgainst catalog degrees = none) :
    ∀ c ∈ catalog, combinedScore c (firstOccur degrees) < minConfidence := by
  simp only [detectAgainst] at h
  cases hbest : argmaxFirst (fun c => combinedScore c (firstOccur degrees))
      catalog with
  | none =>
    have hcat : catalog = [] := by
      cases catalog with
      | nil => rfl
      | cons a as => exact absurd hbest (argmaxFirst_ne_none _ _ _)
    subst hcat
    intro c hc
    cases hc
  | some best =>
    simp only [hbest] at h
    by_cases hth : minConfidence ≤ combinedScore best (firstOccur degrees)
    · rw [if_pos hth] at h
      cases h
    · intro c hc
      obtain ⟨hmem, hmax⟩ := argmaxFirst_spec _ _ _ hbest
      exact lt_of_le_of_lt (hmax c hc) (not_le.mp hth)

/-- When every catalog entry scores below the threshold, detection
reports no match. -/
theorem detectAgainst_none_of_below (catalog : List RaagaCandidate)
    (degrees : List ScaleDegree)
    (h : ∀ c ∈ catalog, combinedScore c (firstOccur degrees) < minConfidence) :
    detectAgainst catalog degrees = none := by
  simp only [detectAgainst]
  cases hbest : argmaxFirst (fun c => combinedScore c (firstOccur degrees))
      catalog with
  | none => rfl
  | some best =>
    have hb := h best (argmaxFirst_spec _ _ _ hbest).1
    show (if minConfidence ≤ combinedScore best (firstOccur degrees) then
        some (RaagaMatch.mk best (combinedScore best (firstOccur degrees)))
      else none) = none
    rw [if_neg (not_le.mpr hb)]

/-- Every candidate scores zero against an empty observation. -/
theorem combinedScore_nil (c : RaagaCandidate) : combinedScore c [] = 0 := by
  simp [combinedScore, overlapScore, patternScore, lcsScore, lcsLen]

/-- C2: for every non-empty note sequence, the Raaga Matcher combines
each candidate score as 0.6 · overlap + 0.4 · pattern, selects a
candidate of maximal combined score, and reports it exactly when that
score reaches the 0.30 minimum confidence; otherwise it reports no
match. -/
theorem detectRaaga_score_combination (notes : List SwaramNote)
    (_hne : notes ≠ []) :
    (∀ c, combinedScore c (observedOrder notes) =
      3 / 5 * overlapScore c (observedOrder notes) +
      2 / 5 * patternScore c (observedOrder notes)) ∧
    (∀ m, detectRaaga notes = some m →
      m.raaga ∈ raagaCatalog ∧
      (∀ c ∈ raagaCatalog, combinedScore c (observedOrder notes) ≤
        combinedScore m.raaga (observedOrder notes)) ∧
      m.confidence = combinedScore m.raaga (observedOrder notes) ∧
      minConfidence ≤ m.confidence) ∧
    (detectRaaga notes = none →
      ∀ c ∈ raagaCatalog, combinedScore c (observedOrder notes) < minConfidence) := by
  refine ⟨fun c => rfl, ?_, ?_⟩
  · intro m hm
    exact detectAgainst_some_spec raagaCatalog _ m hm
  · intro hm
    exact detectAgainst_none_spec raagaCatalog _ hm

/-- Witness for C2 at a concrete two-note sequence and the documented
Mayamalavagowla candidate. -/
theorem detectRaaga_score_combination_witness :
    combinedScore mayamalavagowla (observedOrder boundaryNotes) =
      3 / 5 * overlapScore mayamalavagowla (observedOrder boundaryNotes) +
      2 / 5 * patternScore mayamalavagowla (observedOrder boundaryNotes) :=
  (detectRaaga_score_combination boundaryNotes (by simp [boundaryNotes])).1
    mayamalavagowla

/-- C5: `detectRaaga` is a pure total function: the empty note sequence
yields no match (an absent `RaagaMatch`) rather than an error, and every
note sequence yields a definite value — no match or a match drawn from
the catalog. -/
theorem detectRaaga_total_empty_no_match :
    detectRaaga [] = none ∧
    ∀ notes : List SwaramNote, detectRaaga notes = none ∨
      ∃ m, detectRaaga notes = some m ∧ m.raaga ∈ raagaCatalog := by
  constructor
  · show detectAgainst raagaCatalog [] = none
    apply detectAgainst_none_of_below
    intro c hc
    have h0 : firstOccur [] = [] := by simp [firstOccur]
    rw [h0, combinedScore_nil c, minConfidence]
    norm_num
  · intro notes
    cases h : detectRaaga notes with
    | none => exact Or.inl rfl
    | some m => exact Or.inr ⟨m, rfl, (detectAgainst_some_spec raagaCatalog _ m h).1⟩

/-- C7: raaga detection does not depend on octave information — two
note sequences with the same ordered scale-degree fields give the same
result, whatever their octave (or timing, gamakam and confidence)
fields. -/
theorem detectRaaga_octave_independent (ns1 ns2 : List SwaramNote)
    (h : ns1.map (fun n => n.swaram) = ns2.map (fun n => n.swaram)) :
    detectRaaga ns1 = detectRaaga ns2 := by
  simp only [detectRaaga, h]

/-- Witness for C7: one note in Mandra against the same degree in Tara. -/
theorem detectRaaga_octave_independent_witness :
    detectRaaga [{ start := 0, endTime := 1, swaram := .Sa, octave := .Mandra
                 , gamakam := none, confidence := 1 }] =
    detectRaaga [{ start := 0, endTime := 1, swaram := .Sa, octave := .Tara
                 , gamakam := none, confidence := 1 }] :=
  detectRaaga_octave_independent _ _ rfl

/-- C6: an empty sample buffer, a non-positive sample rate or a
non-positive tonic makes the pipeline return a validation-kind failure
before any analysis stage runs (the result is that validation failure
for every possible analysis behaviour), and that failure is
distinguishable from successful — possibly empty — results and from
internal processing failures. -/
theorem transcribe_validation_before_analysis
    (analyze : List ℚ → ℚ → ℚ → Except TranscribeError (List SwaramNote))
    (monoSamples : List ℚ) (sampleRate tonicHz : ℚ)
    (hbad : monoSamples = [] ∨ sampleRate ≤ 0 ∨ tonicHz ≤ 0) :
    isValidationFailure (transcribeWith analyze monoSamples sampleRate tonicHz) = true ∧
    (∀ notes : List SwaramNote, isValidationFailure (.ok notes) = false) ∧
    (∀ msg, isValidationFailure (.error (.processing msg)) = false) := by
  refine ⟨?_, fun _ => rfl, fun _ => rfl⟩
  by_cases hs : monoSamples.isEmpty
  · simp only [transcribeWith]
    rw [if_pos hs]
    rfl
  · rcases hbad with h | h | h
    · exact absurd (by simp [h]) hs
    · simp only [transcribeWith]
      rw [if_neg hs, if_pos h]
      rfl
    · by_cases hr : sampleRate ≤ 0
      · simp only [transcribeWith]
        rw [if_neg hs, if_pos hr]
        rfl
      · simp only [transcribeWith]
        rw [if_neg hs, if_neg hr, if_pos h]
        rfl

/-- Witness for C6: the empty sample buffer with valid rate and tonic. -/
theorem transcribe_validation_before_analysis_witness :
    isValidationFailure
      (transcribeWith (fun _ _ _ => .ok []) [] 44100 defaultTonic) = true :=
  (transcribe_validation_before_analysis _ [] 44100 defaultTonic (Or.inl rfl)).1

/-- C3: for every tonic T > 0 the ToneMap frequencies strictly increase
along the ordered (octave-index, scale-degree-index) keys: whenever one
key precedes another in the ToneMap order, its frequency is strictly
smaller. -/
theorem toneMap_strictly_monotonic (T : ℚ) (hT : 0 < T) :
    ((toneMap T).map fun e => e.2).Pairwise (· < ·) := by
  have hmap : (toneMap T).map (fun e => e.2) = toneMapKeys.map (toneMapFreq T) := by
    simp [toneMap, List.map_map, Function.comp]
  rw [hmap, List.pairwise_map]
  haveI : IsTrans (Octave × ScaleDegree)
      (fun a b => toneMapFreq T a < toneMapFreq T b) :=
    ⟨fun _ _ _ h1 h2 => lt_trans h1 h2⟩
  rw [← List.chain'_iff_pairwise]
  have hbase : List.Chain' (fun a b : Octave × ScaleDegree =>
      octaveFactor a.1 * justFactor a.2 < octaveFactor b.1 * justFactor b.2)
      toneMapKeys := by
    norm_num [toneMapKeys, octaves, scaleDegrees, List.chain'_cons,
      octaveFactor, justFactor]
  exact hbase.imp fun a b h => by
    simpa [toneMapFreq] using mul_lt_mul_of_pos_left h hT

/-- Witness for C3 at the default tonic of 131 Hz. -/
theorem toneMap_strictly_monotonic_witness :
    ((toneMap 131).map fun e => e.2).Pairwise (· < ·) :=
  toneMap_strictly_monotonic 131 (by norm_num)

/-- A nonempty entry list always yields a nearest entry. -/
theorem nearestEntry_ne_none (e : (ScaleDegree × Octave) × ℚ)
    (es : List ((ScaleDegree × Octave) × ℚ)) (c : ℚ) :
    nearestEntry (e :: es) c ≠ none := by
  simp only [nearestEntry]
  cases h : nearestEntry es c with
  | none => simp
  | some e2 => by_cases hlt : |c - e2.2| < |c - e.2| <;> simp [hlt]

/-- The nearest entry belongs to the list and minimises the distance to
the query position. -/
theorem nearestEntry_spec (es : List ((ScaleDegree × Octave) × ℚ)) (c : ℚ)
    (e : (ScaleDegree × Octave) × ℚ) (h : nearestEntry es c = some e) :
    e ∈ es ∧ ∀ q ∈ es, |c - e.2| ≤ |c - q.2| := by
  induction es generalizing e with
  | nil => simp [nearestEntry] at h
  | cons x xs ih =>
    cases hxs : nearestEntry xs c with
    | none =>
      simp only [nearestEntry, hxs, Option.some.injEq] at h
      subst h
      have hx : xs = [] := by
        cases xs with
        | nil => rfl
        | cons a as => exact absurd hxs (nearestEntry_ne_none a as c)
      subst hx
      refine ⟨by simp, ?_⟩
      intro q hq
      simp only [List.mem_singleton] at hq
      subst hq
      exact le_refl _
    | some e2 =>
      simp only [nearestEntry, hxs] at h
      obtain ⟨hmem, hmin⟩ := ih e2 hxs
      by_cases hlt : |c - e2.2| < |c - x.2|
      · rw [if_pos hlt] at h
        simp only [Option.some.injEq] at h
        subst h
        refine ⟨List.mem_cons_of_mem _ hmem, ?_⟩
        intro q hq
        rcases List.mem_cons.mp hq with rfl | hq2
        · exact le_of_lt hlt
        · exact hmin q hq2
      · rw [if_neg hlt] at h
        simp only [Option.some.injEq] at h
        subst h
        refine ⟨List.mem_cons_self x xs, ?_⟩
        intro q hq
        rcases List.mem_cons.mp hq with rfl | hq2
        · exact le_refl _
        · exact le_trans (not_lt.mp hlt) (hmin q hq2)

/-- C4: the Swaram Mapper accepts the nearest ToneMap entry exactly when
the absolute cent distance is at most 10 cents.  An accepted key comes
from a nearest entry within tolerance; the mapper rejects the frame
exactly when every entry is more than 10 cents away; a frame exactly
+10 cents from an entry (all other entries out of tolerance) matches
that entry; and a frame at +10.01 cents, with every entry out of
tolerance, matches nothing and is excluded from stable-note
assignment. -/
theorem frequencyToSwaram_cent_tolerance
    (entries : List ((ScaleDegree × Octave) × ℚ)) (c : ℚ) :
    (∀ k, frequencyToSwaram entries c = some k →
      ∃ p, (k, p) ∈ entries ∧ |c - p| ≤ centTolerance ∧
        ∀ q ∈ entries, |c - p| ≤ |c - q.2|) ∧
    (frequencyToSwaram entries c = none ↔
      ∀ q ∈ entries, centTolerance < |c - q.2|) ∧
    (∀ k p, (k, p) ∈ entries →
      (∀ q ∈ entries, q.2 ≠ p → centTolerance < |p + 10 - q.2|) →
      (∀ q ∈ entries, q.2 = p → q = (k, p)) →
      frequencyToSwaram entries (p + 10) = some k) ∧
    (∀ p : ℚ, (∀ q ∈ entries, centTolerance < |p + (10 + 1 / 100) - q.2|) →
      frequencyToSwaram entries (p + (10 + 1 / 100)) = none) := by
  have hsome : ∀ (c2 : ℚ) k, frequencyToSwaram entries c2 = some k →
      ∃ p, (k, p) ∈ entries ∧ |c2 - p| ≤ centTolerance ∧
        ∀ q ∈ entries, |c2 - p| ≤ |c2 - q.2| := by
    intro c2 k hk
    simp only [frequencyToSwaram] at hk
    cases hne : nearestEntry entries c2 with
    | none =>
      simp only [hne] at hk
      exact Option.noConfusion hk
    | some e =>
      simp only [hne] at hk
      by_cases htol : |c2 - e.2| ≤ centTolerance
      · rw [if_pos htol] at hk
        simp only [Option.some.injEq] at hk
        subst hk
        obtain ⟨hmem, hmin⟩ := nearestEntry_spec entries c2 e hne
        refine ⟨e.2, ?_, htol, hmin⟩
        rw [Prod.mk.eta]
        exact hmem
      · rw [if_neg htol] at hk
        exact Option.noConfusion hk
  have hnone : ∀ c2 : ℚ, frequencyToSwaram entries c2 = none ↔
      ∀ q ∈ entries, centTolerance < |c2 - q.2| := by
    intro c2
    constructor
    · intro h0 q hq
      simp only [frequencyToSwaram] at h0
      cases hne : nearestEntry entries c2 with
      | none =>
        cases entries with
        | nil => cases hq
        | cons a as => exact absurd hne (nearestEntry_ne_none a as c2)
      | some e =>
        simp only [hne] at h0
        by_cases htol : |c2 - e.2| ≤ centTolerance
        · rw [if_pos htol] at h0
          exact Option.noConfusion h0
        · obtain ⟨hmem, hmin⟩ := nearestEntry_spec entries c2 e hne
          exact lt_of_lt_of_le (not_le.mp htol) (hmin q hq)
    · intro hall
      simp only [frequencyToSwaram]
      cases hne : nearestEntry entries c2 with
      | none => rfl
      | some e =>
        obtain ⟨hmem, _⟩ := nearestEntry_spec entries c2 e hne
        show (if |c2 - e.2| ≤ centTolerance then some e.1 else none) = none
        rw [if_neg (not_le.mpr (hall e hmem))]
  refine ⟨hsome c, hnone c, ?_, fun p hall => (hnone _).mpr hall⟩
  intro k p hmemkp hfar huniq
  have hd : |p + 10 - p| ≤ centTolerance := by
    rw [add_sub_cancel_left, centTolerance]
    norm_num
  cases hne : nearestEntry entries (p + 10) with
  | none =>
    cases entries with
    | nil => cases hmemkp
    | cons a as => exact absurd hne (nearestEntry_ne_none a as (p + 10))
  | some e =>
    obtain ⟨hemem, hmin⟩ := nearestEntry_spec entries (p + 10) e hne
    have he2 : e.2 = p := by
      by_contra hnep
      have h1 : centTolerance < |p + 10 - e.2| := hfar e hemem hnep
      have h2 : |p + 10 - e.2| ≤ |p + 10 - p| := by
        simpa using hmin (k, p) hmemkp
      have h3 : |p + 10 - p| ≤ centTolerance := hd
      linarith
    have he : e = (k, p) := huniq e hemem he2
    subst he
    simp only [frequencyToSwaram, hne]
    rw [if_pos hd]

/-- Witness for C4 on the concrete cents-domain entries: the frame at
exactly +10 cents from the Sa entry matches Sa, the frame at +10.01
cents matches nothing. -/
theorem frequencyToSwaram_cent_tolerance_witness :
    frequencyToSwaram demoCentEntries ((0 : ℚ) + 10) = some (.Sa, .Madhya) ∧
    frequencyToSwaram demoCentEntries ((0 : ℚ) + (10 + 1 / 100)) = none := by
  constructor
  · refine (frequencyToSwaram_cent_tolerance demoCentEntries 0).2.2.1
      (.Sa, .Madhya) 0 ?_ ?_ ?_
    · simp [demoCentEntries]
    · intro q hq hqne
      simp only [demoCentEntries, List.mem_cons, List.not_mem_nil, or_false] at hq
      rcases hq with rfl | rfl
      · exact absurd rfl hqne
      · norm_num [centTolerance]
    · intro q hq hq2
      simp only [demoCentEntries, List.mem_cons, List.not_mem_nil, or_false] at hq
      rcases hq with rfl | rfl
      · rfl
      · norm_num at hq2
  · refine (frequencyToSwaram_cent_tolerance demoCentEntries 0).2.2.2 0 ?_
    intro q hq
    simp only [demoCentEntries, List.mem_cons, List.not_mem_nil, or_false] at hq
    rcases hq with rfl | rfl
    · norm_num [centTolerance, abs_of_nonneg]
    · norm_num [centTolerance, abs_of_nonneg]

/-- Witness for C9: resetting a state with a modified playback position
restores the initial state. -/
theorem reset_restores_initial_state_witness :
    reset { initialAppState with currentTime := 42, isPlaying := true } =
      initialAppState :=
  (reset_restores_initial_state
    { initialAppState with currentTime := 42, isPlaying := true
    }).2.2.2.2.2.2.2.2.2.2

/-- Witness for C8: the toast on a concrete non-empty swaram list is
also a success. -/
theorem degenerate_results_render_no_results_witness :
    (transcribeToast (some boundaryNotes)).isSuccess = true :=
  degenerate_results_render_no_results.2.2.2.2.2 boundaryNotes

/-- Witness for C5: the totality disjunction at a concrete note list. -/
theorem detectRaaga_total_empty_no_match_witness :
    detectRaaga boundaryNotes = none ∨
      ∃ m, detectRaaga boundaryNotes = some m ∧ m.raaga ∈ raagaCatalog :=
  detectRaaga_total_empty_no_match.2 boundaryNotes
